import Mathlib

/-!
Shallow embedding of the auto-driving car simulation (`app.py`) and proofs
about it.  Cars are identified by their index in the simulation's car list
(Python identifies them by object identity; the list is never reordered and
only appended to, so the index is a faithful identifier).  Python exceptions
are modelled by `Option`: `none` is a raised exception.
-/

/-- The clockwise direction list, Python `DIRECTIONS = ['N', 'E', 'S', 'W']`. -/
def DIRECTIONS : List String := ["N", "E", "S", "W"]

/-- Python `DIRECTIONS.index(direction)`; `none` models the `ValueError`
raised when the string is not in the list. -/
def dirIndex (direction : String) : Option Nat :=
  DIRECTIONS.findIdx? (fun d => d == direction)

/-- Python `rotate_left`: `DIRECTIONS[(DIRECTIONS.index(direction) - 1) % 4]`.
Python's `%` on a negative argument is nonnegative, which is `Int.emod`. -/
def rotate_left (direction : String) : Option String :=
  (dirIndex direction).map (fun i => DIRECTIONS.getD (((i : Int) - 1).emod 4).toNat "")

/-- Python `rotate_right`: `DIRECTIONS[(DIRECTIONS.index(direction) + 1) % 4]`. -/
def rotate_right (direction : String) : Option String :=
  (dirIndex direction).map (fun i => DIRECTIONS.getD (((i : Int) + 1).emod 4).toNat "")

/-- Python `move_forward`: move one cell in `direction` when the guard of the
matching branch holds, otherwise keep the position.  The guards are exactly the
source's: `y + 1 <= height`, `y - 1 >= 0`, `x + 1 <= width`, `x - 1 >= 0`. -/
def move_forward (x y : Int) (direction : String) (width height : Int) : Int × Int :=
  if direction = "N" ∧ y + 1 ≤ height then (x, y + 1)
  else if direction = "S" ∧ y - 1 ≥ 0 then (x, y - 1)
  else if direction = "E" ∧ x + 1 ≤ width then (x + 1, y)
  else if direction = "W" ∧ x - 1 ≥ 0 then (x - 1, y)
  else (x, y)

/-- The mutable fields of Python's `Car` object. -/
structure Car where
  name : String
  x : Int
  y : Int
  direction : String
  commands : List Char
  collided : Bool
deriving DecidableEq, Repr

/-- Python `Car.execute_command`.  `none` models the `ValueError` that
`rotate_left`/`rotate_right` raise on a direction outside `DIRECTIONS`. -/
def Car.execute_command (car : Car) (command : Char) (width height : Int) : Option Car :=
  if car.collided then some car
  else if command = 'L' then
    (rotate_left car.direction).map (fun d => { car with direction := d })
  else if command = 'R' then
    (rotate_right car.direction).map (fun d => { car with direction := d })
  else if command = 'F' then
    let p := move_forward car.x car.y car.direction width height
    some { car with x := p.1, y := p.2 }
  else some car

/-- A grid cell. -/
abbrev Pos := Int × Int

/-- The fields of Python's `Simulation` object.  `positions` is the
`defaultdict(set)` occupancy index, a total function returning `∅` for absent
keys; it holds car indices into `cars` (Python holds the objects). -/
structure Simulation where
  width : Int
  height : Int
  cars : List Car
  car_names : Finset String
  positions : Pos → Finset Nat

/-- Python `Simulation.__init__`. -/
def Simulation.init (width height : Int) : Simulation :=
  { width := width, height := height, cars := [], car_names := ∅, positions := fun _ => ∅ }

/-- Python `Simulation.add_car`: append the car, record its name, and insert
its index into the occupancy set of its starting cell. -/
def Simulation.add_car (sim : Simulation) (name : String) (x y : Int)
    (direction : String) (commands : String) : Simulation :=
  { sim with
    cars := sim.cars ++ [⟨name, x, y, direction, commands.toList, false⟩],
    car_names := insert name sim.car_names,
    positions := fun p =>
      if p = (x, y) then insert sim.cars.length (sim.positions p) else sim.positions p }

/-- Python `Simulation.reset`: clear cars, names and the occupancy index. -/
def Simulation.reset (sim : Simulation) : Simulation :=
  { sim with cars := [], car_names := ∅, positions := fun _ => ∅ }

/-- One line of the collision log printed by `Simulation.run` (both printed
lines of one collision carry the same data, so one record stands for the
pair of symmetric lines). -/
structure CollisionEvent where
  name : String
  others : List String
  pos : Pos
  step : Nat
deriving DecidableEq, Repr

/-- State threaded through the stepping loop of `Simulation.run`. -/
structure StepState where
  cars : List Car
  positions : Pos → Finset Nat
  log : List CollisionEvent

/-- Insert a string into a descending-sorted list. -/
def insertDesc (s : String) : List String → List String
  | [] => [s]
  | t :: ts => if t ≤ s then s :: t :: ts else t :: insertDesc s ts

/-- Python `sorted(names, reverse = True)`: descending lexicographic sort.
Any correct sort is extensionally the Python one, since equal strings are
indistinguishable. -/
def sortDesc : List String → List String
  | [] => []
  | s :: ts => insertDesc s (sortDesc ts)

/-- The marking loop `for collided_car in self.positions[...]: ...collided =
True`, over the whole car list: car `j + k` (for `k` the list offset) is
marked when its index is in `others`. -/
def markFrom (others : Finset Nat) : Nat → List Car → List Car
  | _, [] => []
  | j, c :: cs =>
    (if j ∈ others then { c with collided := true } else c) :: markFrom others (j + 1) cs

/-- The `collided_cars` name list of `Simulation.run`: the names of the cars
whose indices are in `others`, sorted descending (Python builds the names in
set-iteration order and then sorts them with `reverse = True`; the result is
determined by the name multiset alone, here linearized by index). -/
def collidedNames (cars : List Car) (others : Finset Nat) : List String :=
  sortDesc (((List.range cars.length).filter (fun j => j ∈ others)).filterMap
    (fun j => cars[j]?.map Car.name))

/-- `self.positions[p].remove(i)` as a total update (Python's `set.remove`
raises when the element is absent; the occupancy invariant proved below
guarantees presence at every call site reached by `run`). -/
def removeAt (pos : Pos → Finset Nat) (p : Pos) (i : Nat) : Pos → Finset Nat :=
  fun q => if q = p then (pos p).erase i else pos q

/-- `self.positions[p].add(i)`. -/
def addAt (pos : Pos → Finset Nat) (p : Pos) (i : Nat) : Pos → Finset Nat :=
  fun q => if q = p then insert i (pos p) else pos q

/-- The body of `for car in self.cars` inside one step of `Simulation.run`:
process the car at index `i`.  A collided car and a car with an empty queue
are skipped; otherwise the front command is popped and executed, every other
occupant of the arrival cell is marked collided, and if the command was `F`
and such occupants existed the moving car is marked collided and the
collision is logged; finally the occupancy index is updated. -/
def processCar (width height : Int) (step : Nat) (i : Nat) (st : StepState) :
    Option StepState :=
  match st.cars[i]? with
  | none => some st
  | some car =>
    match car.collided, car.commands with
    | false, command :: rest =>
      let prev : Pos := (car.x, car.y)
      match Car.execute_command { car with commands := rest } command width height with
      | none => none
      | some car1 =>
        let here : Pos := (car1.x, car1.y)
        let others : Finset Nat := (st.positions here).erase i
        let cars1 := markFrom others 0 st.cars
        let collided_cars := collidedNames st.cars others
        let car2 := if command = 'F' ∧ collided_cars ≠ [] then
            { car1 with collided := true } else car1
        let log2 := if command = 'F' ∧ collided_cars ≠ [] then
            st.log ++ [⟨car1.name, collided_cars, here, step⟩] else st.log
        some ⟨cars1.set i car2, addAt (removeAt st.positions prev i) here i, log2⟩
    | _, _ => some st

/-- The state `processCar` produces in its active branch, named so that the
equation lemmas below can state it once: `car` is the car before the move,
`cmd` the popped command, `car1` the car after `execute_command`. -/
def procResult (step : Nat) (i : Nat) (st : StepState) (car : Car) (cmd : Char)
    (car1 : Car) : StepState :=
  let here : Pos := (car1.x, car1.y)
  let others : Finset Nat := (st.positions here).erase i
  let cars1 := markFrom others 0 st.cars
  let collided_cars := collidedNames st.cars others
  let car2 := if cmd = 'F' ∧ collided_cars ≠ [] then { car1 with collided := true } else car1
  let log2 := if cmd = 'F' ∧ collided_cars ≠ [] then
      st.log ++ [⟨car1.name, collided_cars, here, step⟩] else st.log
  ⟨cars1.set i car2, addAt (removeAt st.positions (car.x, car.y) i) here i, log2⟩

/-- Process the cars with the given indices in order, stopping at the first
exception. -/
def processList (width height : Int) (step : Nat) : List Nat → StepState → Option StepState
  | [], st => some st
  | i :: is, st =>
    match processCar width height step i st with
    | none => none
    | some st1 => processList width height step is st1

/-- One step of `Simulation.run`: every car, in registration order, is offered
one command. -/
def runStep (width height : Int) (step : Nat) (st : StepState) : Option StepState :=
  processList width height step (List.range st.cars.length) st

/-- The `for i in range(max_commands)` loop of `Simulation.run`, with `k`
steps left and `step` the next step number. -/
def runLoop (width height : Int) : Nat → Nat → StepState → Option StepState
  | 0, _, st => some st
  | k + 1, step, st =>
    match runStep width height step st with
    | none => none
    | some st1 => runLoop width height k (step + 1) st1

/-- The observable outcome of `Simulation.run`: the returned boolean, the
simulation state after the run, the collision log, and the final listing of
uncollided cars (name, position, direction) in registration order. -/
structure RunResult where
  ok : Bool
  sim : Simulation
  log : List CollisionEvent
  final : List (String × Pos × String)

/-- Python `Simulation.run`. -/
def Simulation.run (sim : Simulation) : Option RunResult :=
  if sim.cars = [] then some ⟨false, sim, [], []⟩
  else
    let max_commands := (sim.cars.map (fun c => c.commands.length)).foldl max 0
    match runLoop sim.width sim.height max_commands 1 ⟨sim.cars, sim.positions, []⟩ with
    | none => none
    | some st =>
      some ⟨true, { sim with cars := st.cars, positions := st.positions }, st.log,
        (st.cars.filter (fun c => c.collided = false)).map
          (fun c => (c.name, ((c.x, c.y) : Pos), c.direction))⟩

/-- A car's cell. -/
def carPos (c : Car) : Pos := (c.x, c.y)

/-- The occupancy invariant: index `i` is recorded at cell `p` exactly when
the `i`-th car exists and stands at `p`; in particular every car is a member
of the occupancy set of its own cell and of no other cell's set. -/
def OccInv (cars : List Car) (pos : Pos → Finset Nat) : Prop :=
  ∀ i p, i ∈ pos p ↔ cars[i]?.map carPos = some p

/-- Distinct uncollided cars stand on distinct cells.  This holds for every
state reachable by `run` from a registration that puts no two cars on the
same starting cell. -/
def Separated (cars : List Car) : Prop :=
  ∀ (i j : Nat) (ci cj : Car), i ≠ j → cars[i]? = some ci → cars[j]? = some cj →
    ci.collided = false → cj.collided = false → carPos ci ≠ carPos cj

/-- The canonical occupancy index of a car list. -/
def posIndex (cars : List Car) : Pos → Finset Nat :=
  fun p => (Finset.range cars.length).filter (fun i => cars[i]?.map carPos = some p)

/-- The inclusive bounds the source's `move_forward` actually enforces. -/
def InBounds (width height : Int) (c : Car) : Prop :=
  0 ≤ c.x ∧ c.x ≤ width ∧ 0 ≤ c.y ∧ c.y ≤ height

/-- All cars have a direction from `DIRECTIONS`. -/
def ValidDirs (cars : List Car) : Prop :=
  ∀ c ∈ cars, c.direction ∈ DIRECTIONS

/-- The scenario of claim C1: a 10×10 field with cars A and B. -/
def simC1 : Simulation :=
  ((Simulation.init 10 10).add_car "A" 1 2 "N" "FFRFFFFRRL").add_car "B" 7 8 "W" "FFLFFFFFFF"

/-- A two-car simulation, for the ordering properties of one step. -/
def twoCarSim (w h : Int) (n1 : String) (x1 y1 : Int) (d1 c1 : String)
    (n2 : String) (x2 y2 : Int) (d2 c2 : String) : Simulation :=
  ((Simulation.init w h).add_car n1 x1 y1 d1 c1).add_car n2 x2 y2 d2 c2

/-- `InBounds` is decidable (used to check concrete states). -/
instance decInBounds (w h : Int) (c : Car) : Decidable (InBounds w h c) :=
  inferInstanceAs (Decidable (0 ≤ c.x ∧ c.x ≤ w ∧ 0 ≤ c.y ∧ c.y ≤ h))

/-- A one-car simulation on a 5×5 grid, a concrete check state. -/
def simW2 : Simulation := (Simulation.init 5 5).add_car "A" 1 1 "N" "F"

/-- A one-car simulation on a 4×4 grid, a concrete check state. -/
def simW8 : Simulation := (Simulation.init 4 4).add_car "B" 2 2 "E" "FF"

/-- A step state holding one already-collided car, a concrete check state. -/
def stW5 : StepState :=
  ⟨[⟨"A", 1, 1, "N", ['F'], true⟩], posIndex [⟨"A", 1, 1, "N", ['F'], true⟩], []⟩

/-- A simulation holding one already-collided car, a concrete check state. -/
def simW5 : Simulation :=
  ⟨5, 5, [⟨"A", 1, 1, "N", ['F'], true⟩], {"A"}, posIndex [⟨"A", 1, 1, "N", ['F'], true⟩]⟩

/-- A one-car simulation used to check the occupancy invariant. -/
def simW6 : Simulation := (Simulation.init 5 5).add_car "A" 1 1 "N" "F"

/-- The corresponding loop state. -/
def stW6 : StepState := ⟨simW6.cars, simW6.positions, []⟩

/-- A step state holding one car about to rotate left, a concrete check
state. -/
def stW3 : StepState :=
  ⟨[⟨"A", 1, 1, "N", ['L'], false⟩], posIndex [⟨"A", 1, 1, "N", ['L'], false⟩], []⟩

/-! ### Basic lemmas about the helper functions -/

/-- `move_forward` keeps a position inside the inclusive rectangle
`[0,width] × [0,height]` (the bounds its guards actually enforce). -/
lemma move_forward_bounds (x y : Int) (d : String) (w h : Int)
    (hx0 : 0 ≤ x) (hxw : x ≤ w) (hy0 : 0 ≤ y) (hyh : y ≤ h) :
    0 ≤ (move_forward x y d w h).1 ∧ (move_forward x y d w h).1 ≤ w ∧
    0 ≤ (move_forward x y d w h).2 ∧ (move_forward x y d w h).2 ≤ h := by
  unfold move_forward
  split_ifs with h1 h2 h3 h4 <;>
    simp only [Prod.fst, Prod.snd] <;>
    first
      | exact ⟨hx0, hxw, hy0, hyh⟩
      | · obtain ⟨-, hb⟩ := h1; exact ⟨by omega, by omega, by omega, by omega⟩
      | · obtain ⟨-, hb⟩ := h2; exact ⟨by omega, by omega, by omega, by omega⟩
      | · obtain ⟨-, hb⟩ := h3; exact ⟨by omega, by omega, by omega, by omega⟩
      | · obtain ⟨-, hb⟩ := h4; exact ⟨by omega, by omega, by omega, by omega⟩

/-- Rotating left sends a direction of `DIRECTIONS` to a direction of
`DIRECTIONS`. -/
lemma rotate_left_mem (d : String) (hd : d ∈ DIRECTIONS) :
    ∃ d', rotate_left d = some d' ∧ d' ∈ DIRECTIONS := by
  fin_cases hd <;> exact ⟨_, rfl, by decide⟩

/-- Rotating right sends a direction of `DIRECTIONS` to a direction of
`DIRECTIONS`. -/
lemma rotate_right_mem (d : String) (hd : d ∈ DIRECTIONS) :
    ∃ d', rotate_right d = some d' ∧ d' ∈ DIRECTIONS := by
  fin_cases hd <;> exact ⟨_, rfl, by decide⟩

/-- Setting an already-set collided flag does not change the car. -/
lemma collided_update_eq (c : Car) (h : c.collided = true) :
    ({ c with collided := true } : Car) = c := by
  cases c; simp_all

/-- `markFrom` preserves the list length. -/
lemma markFrom_length (others : Finset Nat) (j : Nat) (cars : List Car) :
    (markFrom others j cars).length = cars.length := by
  induction cars generalizing j with
  | nil => rfl
  | cons c cs ih => simp [markFrom, ih]

/-- Entry `k` of `markFrom others j cars` is entry `k` of `cars`, collided
when `j + k` is in `others`. -/
lemma markFrom_getElem? (others : Finset Nat) (cars : List Car) (j k : Nat) :
    (markFrom others j cars)[k]? =
      cars[k]?.map (fun c => if j + k ∈ others then { c with collided := true } else c) := by
  induction cars generalizing j k with
  | nil => simp [markFrom]
  | cons c cs ih =>
    cases k with
    | zero => simp [markFrom]
    | succ k =>
      simp only [markFrom, List.getElem?_cons_succ]
      rw [ih (j + 1) k]
      simp only [show j + 1 + k = j + (k + 1) from by omega]

/-- Every element of `markFrom` comes from the original list, unchanged or
with its collided flag set. -/
lemma markFrom_mem (others : Finset Nat) (j : Nat) (cars : List Car) (c' : Car)
    (hc : c' ∈ markFrom others j cars) :
    ∃ c ∈ cars, c' = c ∨ c' = { c with collided := true } := by
  induction cars generalizing j with
  | nil => simp [markFrom] at hc
  | cons c cs ih =>
    simp only [markFrom, List.mem_cons] at hc
    rcases hc with hc | hc
    · refine ⟨c, List.mem_cons_self c cs, ?_⟩
      by_cases hj : j ∈ others <;> simp [hj] at hc <;> simp [hc]
    · obtain ⟨c0, hc0, hor⟩ := ih (j + 1) hc
      exact ⟨c0, List.mem_cons_of_mem c hc0, hor⟩

/-! ### Claim theorems: rotation, reset, totality, scenario -/

/-- C7: on the four directions, a right rotation followed by a left rotation
is the identity, four left rotations are the identity, and both rotations
stay inside `DIRECTIONS`. -/
theorem claimC7_rotation_cycle : ∀ d ∈ DIRECTIONS,
    (rotate_right d).bind rotate_left = some d ∧
    ((((rotate_left d).bind rotate_left).bind rotate_left).bind rotate_left) = some d ∧
    (rotate_left d).isSome = true ∧ (rotate_left d).getD "" ∈ DIRECTIONS ∧
    (rotate_right d).isSome = true ∧ (rotate_right d).getD "" ∈ DIRECTIONS := by
  decide

/-- Witness for C7 at the concrete direction `"N"`. -/
theorem claimC7_witness :
    ("N" ∈ DIRECTIONS) ∧
    (rotate_right "N").bind rotate_left = some "N" ∧
    (rotate_left "N").getD "" ∈ DIRECTIONS :=
  ⟨by decide, (claimC7_rotation_cycle "N" (by decide)).1,
    (claimC7_rotation_cycle "N" (by decide)).2.2.2.1⟩

/-- C9: `reset` empties the car roster, the name set and the whole occupancy
index, and keeps the grid bounds. -/
theorem claimC9_reset :
    ∀ sim : Simulation,
      (sim.reset).cars = [] ∧ (sim.reset).car_names = ∅ ∧
      (∀ p, (sim.reset).positions p = ∅) ∧
      (sim.reset).width = sim.width ∧ (sim.reset).height = sim.height :=
  fun _ => ⟨rfl, rfl, fun _ => rfl, rfl, rfl⟩

/-- C1: in the 10×10 scenario, `run` succeeds, leaves A and B at (5, 4) with
their collided flags set, logs exactly one collision — B against A at (5, 4)
at step 7 — and lists no uncollided car. -/
theorem claimC1_scenario2 :
    (Simulation.run simC1).map (fun r => r.ok) = some true ∧
    (Simulation.run simC1).map (fun r => r.sim.cars) =
      some [⟨"A", 5, 4, "E", ['R', 'R', 'L'], true⟩, ⟨"B", 5, 4, "S", ['F', 'F', 'F'], true⟩] ∧
    (Simulation.run simC1).map (fun r => r.log) = some [⟨"B", ["A"], (5, 4), 7⟩] ∧
    (Simulation.run simC1).map (fun r => r.final) = some [] := by
  decide

/-- C10 fails as stated: `execute_command` does signal an error (the
`ValueError` of `DIRECTIONS.index`, modelled by `none`) when the car's
direction is not a direction and the command is `L`. -/
theorem claimC10_counterexample :
    Car.execute_command ⟨"X", 0, 0, "Q", ['L'], false⟩ 'L' 5 5 = none := by
  decide

/-- C10, amended: a command outside `{L, R, F}` leaves the car unchanged and
raises nothing; `move_forward` is total and returns the input position
unchanged on a direction outside `{N, E, S, W}`; and `execute_command`
raises nothing whenever the car's direction is one of `{N, E, S, W}`. -/
theorem claimC10_amended :
    (∀ (car : Car) (cmd : Char) (w h : Int), cmd ∉ (['L', 'R', 'F'] : List Char) →
      car.execute_command cmd w h = some car) ∧
    (∀ (x y : Int) (d : String) (w h : Int), d ∉ DIRECTIONS → move_forward x y d w h = (x, y)) ∧
    (∀ (car : Car) (cmd : Char) (w h : Int), car.direction ∈ DIRECTIONS →
      (car.execute_command cmd w h).isSome = true) := by
  refine ⟨?_, ?_, ?_⟩
  · intro car cmd w h hc
    simp only [List.mem_cons, List.not_mem_nil, or_false, not_or] at hc
    obtain ⟨h1, h2, h3⟩ := hc
    unfold Car.execute_command
    split_ifs <;> simp_all
  · intro x y d w h hd
    have h1 : d ≠ "N" := by intro he; exact hd (he ▸ by decide)
    have h2 : d ≠ "S" := by intro he; exact hd (he ▸ by decide)
    have h3 : d ≠ "E" := by intro he; exact hd (he ▸ by decide)
    have h4 : d ≠ "W" := by intro he; exact hd (he ▸ by decide)
    unfold move_forward
    split_ifs with g1 g2 g3 g4
    · exact absurd g1.1 h1
    · exact absurd g2.1 h2
    · exact absurd g3.1 h3
    · exact absurd g4.1 h4
    · rfl
  · intro car cmd w h hd
    unfold Car.execute_command
    split_ifs with hco hL hR hF
    · rfl
    · obtain ⟨d', hrot, -⟩ := rotate_left_mem car.direction hd
      simp [hrot]
    · obtain ⟨d', hrot, -⟩ := rotate_right_mem car.direction hd
      simp [hrot]
    · rfl
    · rfl

/-- Witness for the amended C10 at concrete cars, commands and directions. -/
theorem claimC10_witness :
    ('X' ∉ (['L', 'R', 'F'] : List Char)) ∧
    Car.execute_command ⟨"A", 1, 1, "N", ['F'], false⟩ 'X' 5 5 =
      some ⟨"A", 1, 1, "N", ['F'], false⟩ ∧
    ("Q" ∉ DIRECTIONS) ∧ move_forward 2 3 "Q" 5 5 = (2, 3) ∧
    ("N" ∈ DIRECTIONS) ∧
    (Car.execute_command ⟨"A", 1, 1, "N", ['F'], false⟩ 'L' 5 5).isSome = true :=
  ⟨by decide, claimC10_amended.1 ⟨"A", 1, 1, "N", ['F'], false⟩ 'X' 5 5 (by decide),
    by decide, claimC10_amended.2.1 2 3 "Q" 5 5 (by decide),
    by decide, claimC10_amended.2.2 ⟨"A", 1, 1, "N", ['F'], false⟩ 'L' 5 5 (by decide)⟩

/-! ### Equation lemmas for `processCar` -/

/-- Index out of range: the state is untouched. -/
lemma processCar_skip_none (w h : Int) (step i : Nat) (st : StepState)
    (hget : st.cars[i]? = none) : processCar w h step i st = some st := by
  simp only [processCar, hget]

/-- A collided car is skipped. -/
lemma processCar_skip_collided (w h : Int) (step i : Nat) (st : StepState) (car : Car)
    (hget : st.cars[i]? = some car) (hcol : car.collided = true) :
    processCar w h step i st = some st := by
  simp only [processCar, hget, hcol]

/-- A car with an empty queue is skipped. -/
lemma processCar_skip_empty (w h : Int) (step i : Nat) (st : StepState) (car : Car)
    (hget : st.cars[i]? = some car) (hcmd : car.commands = []) :
    processCar w h step i st = some st := by
  simp only [processCar, hget, hcmd]
  cases car.collided <;> rfl

/-- The raising branch: `execute_command` raised. -/
lemma processCar_raise (w h : Int) (step i : Nat) (st : StepState) (car : Car)
    (cmd : Char) (rest : List Char)
    (hget : st.cars[i]? = some car) (hcol : car.collided = false)
    (hcmd : car.commands = cmd :: rest)
    (hexec : Car.execute_command { car with commands := rest } cmd w h = none) :
    processCar w h step i st = none := by
  rw [hcol] at hexec
  simp only [processCar, hget, hcol, hcmd, hexec]

/-- The active branch: the command is popped and executed. -/
lemma processCar_active (w h : Int) (step i : Nat) (st : StepState) (car car1 : Car)
    (cmd : Char) (rest : List Char)
    (hget : st.cars[i]? = some car) (hcol : car.collided = false)
    (hcmd : car.commands = cmd :: rest)
    (hexec : Car.execute_command { car with commands := rest } cmd w h = some car1) :
    processCar w h step i st = some (procResult step i st car cmd car1) := by
  rw [hcol] at hexec
  simp only [processCar, hget, hcol, hcmd, hexec]
  rfl

/-! ### Field lemmas for `execute_command` -/

/-- `execute_command` never touches the name, the command queue or the
collided flag. -/
lemma execute_command_fields (car c' : Car) (cmd : Char) (w h : Int)
    (hx : car.execute_command cmd w h = some c') :
    c'.name = car.name ∧ c'.commands = car.commands ∧ c'.collided = car.collided := by
  unfold Car.execute_command at hx
  split_ifs at hx with hco hL hR hF
  · obtain rfl := Option.some.inj hx; exact ⟨rfl, rfl, rfl⟩
  · obtain ⟨d', -, rfl⟩ := Option.map_eq_some'.1 hx; exact ⟨rfl, rfl, rfl⟩
  · obtain ⟨d', -, rfl⟩ := Option.map_eq_some'.1 hx; exact ⟨rfl, rfl, rfl⟩
  · obtain rfl := Option.some.inj hx; exact ⟨rfl, rfl, rfl⟩
  · obtain rfl := Option.some.inj hx; exact ⟨rfl, rfl, rfl⟩

/-- Any command other than `F` leaves the position unchanged. -/
lemma execute_command_pos (car c' : Car) (cmd : Char) (w h : Int) (hcF : cmd ≠ 'F')
    (hx : car.execute_command cmd w h = some c') : c'.x = car.x ∧ c'.y = car.y := by
  unfold Car.execute_command at hx
  split_ifs at hx with hco hL hR
  · obtain rfl := Option.some.inj hx; exact ⟨rfl, rfl⟩
  · obtain ⟨d', -, rfl⟩ := Option.map_eq_some'.1 hx; exact ⟨rfl, rfl⟩
  · obtain ⟨d', -, rfl⟩ := Option.map_eq_some'.1 hx; exact ⟨rfl, rfl⟩
  · obtain rfl := Option.some.inj hx; exact ⟨rfl, rfl⟩

/-- `execute_command` keeps the car inside the inclusive rectangle. -/
lemma execute_command_inBounds (car c' : Car) (cmd : Char) (w h : Int)
    (hb : InBounds w h car) (hx : car.execute_command cmd w h = some c') :
    InBounds w h c' := by
  obtain ⟨h1, h2, h3, h4⟩ := hb
  unfold Car.execute_command at hx
  split_ifs at hx with hco hL hR hF
  · obtain rfl := Option.some.inj hx; exact ⟨h1, h2, h3, h4⟩
  · obtain ⟨d', -, rfl⟩ := Option.map_eq_some'.1 hx; exact ⟨h1, h2, h3, h4⟩
  · obtain ⟨d', -, rfl⟩ := Option.map_eq_some'.1 hx; exact ⟨h1, h2, h3, h4⟩
  · obtain rfl := Option.some.inj hx
    exact move_forward_bounds car.x car.y car.direction w h h1 h2 h3 h4
  · obtain rfl := Option.some.inj hx; exact ⟨h1, h2, h3, h4⟩

/-- On a valid direction, `execute_command` succeeds and keeps the direction
valid. -/
lemma execute_command_valid (car : Car) (cmd : Char) (w h : Int)
    (hd : car.direction ∈ DIRECTIONS) :
    ∃ c', car.execute_command cmd w h = some c' ∧ c'.direction ∈ DIRECTIONS := by
  unfold Car.execute_command
  split_ifs with hco hL hR hF
  · exact ⟨car, rfl, hd⟩
  · obtain ⟨d', hrot, hd'⟩ := rotate_left_mem car.direction hd
    exact ⟨{ car with direction := d' }, by rw [hrot]; rfl, hd'⟩
  · obtain ⟨d', hrot, hd'⟩ := rotate_right_mem car.direction hd
    exact ⟨{ car with direction := d' }, by rw [hrot]; rfl, hd'⟩
  · exact ⟨_, rfl, hd⟩
  · exact ⟨car, rfl, hd⟩

/-! ### Case analysis and properties of `processCar` -/

/-- `processCar` either skips (returning the state unchanged) or takes the
active branch. -/
lemma processCar_some_cases (w h : Int) (step i : Nat) (st st' : StepState)
    (hp : processCar w h step i st = some st') :
    st' = st ∨ ∃ car cmd rest car1, st.cars[i]? = some car ∧ car.collided = false ∧
      car.commands = cmd :: rest ∧
      Car.execute_command { car with commands := rest } cmd w h = some car1 ∧
      st' = procResult step i st car cmd car1 := by
  cases hget : st.cars[i]? with
  | none =>
    rw [processCar_skip_none w h step i st hget] at hp
    exact Or.inl (Option.some.inj hp).symm
  | some car =>
    cases hcol : car.collided with
    | true =>
      rw [processCar_skip_collided w h step i st car hget hcol] at hp
      exact Or.inl (Option.some.inj hp).symm
    | false =>
      cases hcmd : car.commands with
      | nil =>
        rw [processCar_skip_empty w h step i st car hget hcmd] at hp
        exact Or.inl (Option.some.inj hp).symm
      | cons cmd rest =>
        cases hexec : Car.execute_command { car with commands := rest } cmd w h with
        | none =>
          rw [processCar_raise w h step i st car cmd rest hget hcol hcmd hexec] at hp
          exact absurd hp (by simp)
        | some car1 =>
          rw [processCar_active w h step i st car car1 cmd rest hget hcol hcmd hexec] at hp
          exact Or.inr ⟨car, cmd, rest, car1, rfl, hcol, hcmd, hexec,
            (Option.some.inj hp).symm⟩

/-- `procResult` keeps the number of cars. -/
lemma procResult_cars_length (step i : Nat) (st : StepState) (car car1 : Car) (cmd : Char) :
    (procResult step i st car cmd car1).cars.length = st.cars.length := by
  unfold procResult
  simp [markFrom_length]

/-- `processCar` keeps the number of cars. -/
lemma processCar_length (w h : Int) (step i : Nat) (st st' : StepState)
    (hp : processCar w h step i st = some st') : st'.cars.length = st.cars.length := by
  rcases processCar_some_cases w h step i st st' hp with rfl | ⟨car, cmd, rest, car1, -, -, -, -, rfl⟩
  · rfl
  · exact procResult_cars_length _ _ _ _ _ _

/-- The car list of `procResult`, spelled out. -/
lemma procResult_cars (step i : Nat) (st : StepState) (car car1 : Car) (cmd : Char) :
    (procResult step i st car cmd car1).cars =
      (markFrom ((st.positions (car1.x, car1.y)).erase i) 0 st.cars).set i
        (if cmd = 'F' ∧ collidedNames st.cars ((st.positions (car1.x, car1.y)).erase i) ≠ []
          then { car1 with collided := true } else car1) := rfl

/-- The occupancy index of `procResult`, spelled out. -/
lemma procResult_positions (step i : Nat) (st : StepState) (car car1 : Car) (cmd : Char) :
    (procResult step i st car cmd car1).positions =
      addAt (removeAt st.positions (car.x, car.y) i) (car1.x, car1.y) i := rfl

/-! ### Collided cars are frozen (claim C5 machinery) -/

/-- A collided car is completely untouched by `processCar`, whichever car is
being processed. -/
lemma processCar_frozen (w h : Int) (step i : Nat) (st st' : StepState) (j : Nat) (c : Car)
    (hp : processCar w h step i st = some st')
    (hj : st.cars[j]? = some c) (hc : c.collided = true) : st'.cars[j]? = some c := by
  rcases processCar_some_cases w h step i st st' hp with
    rfl | ⟨car, cmd, rest, car1, hget, hcol, hcmd, hexec, rfl⟩
  · exact hj
  · rcases eq_or_ne j i with rfl | hne
    · rw [hget] at hj
      obtain rfl := Option.some.inj hj
      rw [hcol] at hc
      cases hc
    · rw [procResult_cars, List.getElem?_set_ne (Ne.symm hne), markFrom_getElem?, hj]
      by_cases hmem : j ∈ (st.positions (car1.x, car1.y)).erase i
      · simp [hmem, collided_update_eq c hc]
      · simp [hmem]

/-- Lift of `processCar_frozen` to a list of indices. -/
lemma processList_frozen (w h : Int) (step : Nat) (is : List Nat) (st st' : StepState)
    (j : Nat) (c : Car) (hp : processList w h step is st = some st')
    (hj : st.cars[j]? = some c) (hc : c.collided = true) : st'.cars[j]? = some c := by
  induction is generalizing st with
  | nil =>
    simp only [processList] at hp
    exact (Option.some.inj hp) ▸ hj
  | cons i is ih =>
    simp only [processList] at hp
    split at hp
    · exact absurd hp (by simp)
    · next st1 heq => exact ih st1 hp (processCar_frozen w h step i st st1 j c heq hj hc)

/-- Lift to one full step. -/
lemma runStep_frozen (w h : Int) (step : Nat) (st st' : StepState) (j : Nat) (c : Car)
    (hp : runStep w h step st = some st')
    (hj : st.cars[j]? = some c) (hc : c.collided = true) : st'.cars[j]? = some c :=
  processList_frozen w h step _ st st' j c hp hj hc

/-- Lift to the whole stepping loop. -/
lemma runLoop_frozen (w h : Int) (k step : Nat) (st st' : StepState) (j : Nat) (c : Car)
    (hp : runLoop w h k step st = some st')
    (hj : st.cars[j]? = some c) (hc : c.collided = true) : st'.cars[j]? = some c := by
  induction k generalizing step st with
  | zero =>
    simp only [runLoop] at hp
    exact (Option.some.inj hp) ▸ hj
  | succ k ih =>
    simp only [runLoop] at hp
    split at hp
    · exact absurd hp (by simp)
    · next st1 heq => exact ih (step + 1) st1 hp (runStep_frozen w h step st st1 j c heq hj hc)

/-- Lift to `Simulation.run`: a car that is already collided when `run` is
called is returned exactly as it was. -/
lemma run_frozen (sim : Simulation) (r : RunResult) (j : Nat) (c : Car)
    (hr : sim.run = some r) (hj : sim.cars[j]? = some c) (hc : c.collided = true) :
    r.sim.cars[j]? = some c := by
  unfold Simulation.run at hr
  split_ifs at hr with hemp
  · obtain rfl := Option.some.inj hr
    exact hj
  · dsimp only at hr
    split at hr
    · exact absurd hr (by simp)
    · next st heq =>
      obtain rfl := Option.some.inj hr
      exact runLoop_frozen sim.width sim.height _ 1 ⟨sim.cars, sim.positions, []⟩ st j c heq hj hc

/-! ### Totality on valid directions (claim C8 machinery) -/

/-- An index lookup that succeeds returns a list member. -/
lemma getElem?_mem_list {α : Type} {l : List α} {i : Nat} {a : α} (h : l[i]? = some a) :
    a ∈ l := by
  obtain ⟨hlt, rfl⟩ := List.getElem?_eq_some.1 h
  exact List.getElem_mem hlt

/-- Marking collided flags keeps all directions valid. -/
lemma markFrom_validDirs (others : Finset Nat) (j : Nat) (cars : List Car)
    (hv : ValidDirs cars) : ValidDirs (markFrom others j cars) := by
  intro c' hc'
  obtain ⟨c, hc, hor⟩ := markFrom_mem others j cars c' hc'
  rcases hor with rfl | rfl
  · exact hv _ hc
  · exact hv c hc

/-- Setting one entry to a valid-direction car keeps all directions valid. -/
lemma set_validDirs (cars : List Car) (i : Nat) (c : Car) (hv : ValidDirs cars)
    (hc : c.direction ∈ DIRECTIONS) : ValidDirs (cars.set i c) := by
  intro c' hc'
  rcases List.mem_or_eq_of_mem_set hc' with hmem | rfl
  · exact hv c' hmem
  · exact hc

/-- On a state whose directions are all valid, `processCar` succeeds and
keeps them valid. -/
lemma processCar_total (w h : Int) (step i : Nat) (st : StepState) (hv : ValidDirs st.cars) :
    ∃ st', processCar w h step i st = some st' ∧ ValidDirs st'.cars := by
  cases hget : st.cars[i]? with
  | none => exact ⟨st, processCar_skip_none w h step i st hget, hv⟩
  | some car =>
    cases hcol : car.collided with
    | true => exact ⟨st, processCar_skip_collided w h step i st car hget hcol, hv⟩
    | false =>
      cases hcmd : car.commands with
      | nil => exact ⟨st, processCar_skip_empty w h step i st car hget hcmd, hv⟩
      | cons cmd rest =>
        have hd : car.direction ∈ DIRECTIONS := hv car (getElem?_mem_list hget)
        obtain ⟨car1, hexec, hd1⟩ :=
          execute_command_valid { car with commands := rest } cmd w h hd
        refine ⟨_, processCar_active w h step i st car car1 cmd rest hget hcol hcmd hexec, ?_⟩
        rw [procResult_cars]
        refine set_validDirs _ _ _ (markFrom_validDirs _ _ _ hv) ?_
        split
        · exact hd1
        · exact hd1

/-- Lift of `processCar_total` to a list of indices. -/
lemma processList_total (w h : Int) (step : Nat) (is : List Nat) (st : StepState)
    (hv : ValidDirs st.cars) :
    ∃ st', processList w h step is st = some st' ∧ ValidDirs st'.cars := by
  induction is generalizing st with
  | nil => exact ⟨st, rfl, hv⟩
  | cons i is ih =>
    obtain ⟨st1, hp1, hv1⟩ := processCar_total w h step i st hv
    obtain ⟨st', hp', hv'⟩ := ih st1 hv1
    exact ⟨st', by simp only [processList, hp1]; exact hp', hv'⟩

/-- Lift to the whole stepping loop. -/
lemma runLoop_total (w h : Int) (k step : Nat) (st : StepState) (hv : ValidDirs st.cars) :
    ∃ st', runLoop w h k step st = some st' ∧ ValidDirs st'.cars := by
  induction k generalizing step st with
  | zero => exact ⟨st, rfl, hv⟩
  | succ k ih =>
    obtain ⟨st1, hp1, hv1⟩ := processList_total w h step (List.range st.cars.length) st hv
    obtain ⟨st', hp', hv'⟩ := ih (step + 1) st1 hv1
    refine ⟨st', ?_, hv'⟩
    simp only [runLoop, runStep, hp1]
    exact hp'

/-- `run` on a nonempty roster of valid-direction cars returns `true`. -/
lemma run_nonempty_ok (sim : Simulation) (hne : sim.cars ≠ [])
    (hv : ValidDirs sim.cars) : ∃ r, sim.run = some r ∧ r.ok = true := by
  obtain ⟨st, hLoop, -⟩ := runLoop_total sim.width sim.height
    ((sim.cars.map (fun c => c.commands.length)).foldl max 0) 1
    ⟨sim.cars, sim.positions, []⟩ hv
  have hrun : sim.run = some ⟨true, { sim with cars := st.cars, positions := st.positions },
      st.log, (st.cars.filter (fun c => c.collided = false)).map
        (fun c => (c.name, ((c.x, c.y) : Pos), c.direction))⟩ := by
    unfold Simulation.run
    rw [if_neg hne]
    dsimp only
    rw [hLoop]
  exact ⟨_, hrun, rfl⟩

/-! ### In-bounds preservation (claim C2 machinery) -/

/-- Marking collided flags moves no car. -/
lemma markFrom_inBounds (w h : Int) (others : Finset Nat) (j : Nat) (cars : List Car)
    (hb : ∀ c ∈ cars, InBounds w h c) : ∀ c ∈ markFrom others j cars, InBounds w h c := by
  intro c' hc'
  obtain ⟨c, hc, hor⟩ := markFrom_mem others j cars c' hc'
  rcases hor with rfl | rfl
  · exact hb _ hc
  · exact hb c hc

/-- `processCar` keeps every car inside the inclusive rectangle. -/
lemma processCar_inBounds (w h : Int) (step i : Nat) (st st' : StepState)
    (hp : processCar w h step i st = some st')
    (hb : ∀ c ∈ st.cars, InBounds w h c) : ∀ c ∈ st'.cars, InBounds w h c := by
  rcases processCar_some_cases w h step i st st' hp with
    rfl | ⟨car, cmd, rest, car1, hget, hcol, hcmd, hexec, rfl⟩
  · exact hb
  · rw [procResult_cars]
    intro c' hc'
    rcases List.mem_or_eq_of_mem_set hc' with hmem | rfl
    · exact markFrom_inBounds w h _ _ _ hb c' hmem
    · have hbcar : InBounds w h car := hb car (getElem?_mem_list hget)
      have hb1 : InBounds w h car1 :=
        execute_command_inBounds { car with commands := rest } car1 cmd w h hbcar hexec
      split
      · exact hb1
      · exact hb1

/-- Lift to a list of indices. -/
lemma processList_inBounds (w h : Int) (step : Nat) (is : List Nat) (st st' : StepState)
    (hp : processList w h step is st = some st')
    (hb : ∀ c ∈ st.cars, InBounds w h c) : ∀ c ∈ st'.cars, InBounds w h c := by
  induction is generalizing st with
  | nil =>
    simp only [processList] at hp
    exact (Option.some.inj hp) ▸ hb
  | cons i is ih =>
    simp only [processList] at hp
    split at hp
    · exact absurd hp (by simp)
    · next st1 heq => exact ih st1 hp (processCar_inBounds w h step i st st1 heq hb)

/-- Lift to the whole stepping loop. -/
lemma runLoop_inBounds (w h : Int) (k step : Nat) (st st' : StepState)
    (hp : runLoop w h k step st = some st')
    (hb : ∀ c ∈ st.cars, InBounds w h c) : ∀ c ∈ st'.cars, InBounds w h c := by
  induction k generalizing step st with
  | zero =>
    simp only [runLoop] at hp
    exact (Option.some.inj hp) ▸ hb
  | succ k ih =>
    simp only [runLoop] at hp
    split at hp
    · exact absurd hp (by simp)
    · next st1 heq =>
      exact ih (step + 1) st1 hp (processList_inBounds w h step _ st st1 heq hb)

/-- Lift to `Simulation.run`. -/
lemma run_inBounds (sim : Simulation) (r : RunResult) (hr : sim.run = some r)
    (hb : ∀ c ∈ sim.cars, InBounds sim.width sim.height c) :
    ∀ c ∈ r.sim.cars, InBounds sim.width sim.height c := by
  unfold Simulation.run at hr
  split_ifs at hr with hemp
  · obtain rfl := Option.some.inj hr
    exact hb
  · dsimp only at hr
    split at hr
    · exact absurd hr (by simp)
    · next st heq =>
      obtain rfl := Option.some.inj hr
      exact runLoop_inBounds sim.width sim.height _ 1 ⟨sim.cars, sim.positions, []⟩ st heq hb

/-! ### Claim theorems: bounds, freezing, empty run -/

/-- C2 fails as stated: from the in-bounds position (4, 0) on a 5×5 grid, a
forward move east is allowed by the guard `x + 1 <= width` and lands on
x = 5, which violates the claimed exclusive bound x < width. -/
theorem claimC2_counterexample :
    ((0 : Int) ≤ 4 ∧ (4 : Int) < 5 ∧ (0 : Int) ≤ 0 ∧ (0 : Int) < 5) ∧
    move_forward 4 0 "E" 5 5 = (5, 0) ∧ ¬ ((5 : Int) < 5) := by
  decide

/-- C2, amended: the invariant the code enforces is the inclusive rectangle
`0 ≤ x ≤ width` and `0 ≤ y ≤ height`: `move_forward` preserves it, a forward
move whose candidate cell violates it leaves the position unchanged, and it
holds for every car after `run` whenever it held before. -/
theorem claimC2_amended :
    (∀ (x y : Int) (d : String) (w h : Int), 0 ≤ x → x ≤ w → 0 ≤ y → y ≤ h →
      0 ≤ (move_forward x y d w h).1 ∧ (move_forward x y d w h).1 ≤ w ∧
      0 ≤ (move_forward x y d w h).2 ∧ (move_forward x y d w h).2 ≤ h) ∧
    (∀ x y w h : Int,
      (h < y + 1 → move_forward x y "N" w h = (x, y)) ∧
      (y - 1 < 0 → move_forward x y "S" w h = (x, y)) ∧
      (w < x + 1 → move_forward x y "E" w h = (x, y)) ∧
      (x - 1 < 0 → move_forward x y "W" w h = (x, y))) ∧
    (∀ (sim : Simulation) (r : RunResult),
      (∀ c ∈ sim.cars, InBounds sim.width sim.height c) → sim.run = some r →
      ∀ c ∈ r.sim.cars, InBounds sim.width sim.height c) := by
  refine ⟨move_forward_bounds, ?_, ?_⟩
  · intro x y w h
    refine ⟨fun hy => ?_, fun hy => ?_, fun hx => ?_, fun hx => ?_⟩ <;>
      · unfold move_forward
        split_ifs with g1 g2 g3 g4 <;>
          first
            | rfl
            | (exact absurd g1.2 (by omega))
            | (exact absurd g2.2 (by omega))
            | (exact absurd g3.2 (by omega))
            | (exact absurd g4.2 (by omega))
            | (exact absurd g1.1 (by decide))
            | (exact absurd g2.1 (by decide))
            | (exact absurd g3.1 (by decide))
            | (exact absurd g4.1 (by decide))
  · exact fun sim r hb hr => run_inBounds sim r hr hb

/-- Witness for the amended C2 at concrete positions and a concrete run. -/
theorem claimC2_witness :
    ((0 : Int) ≤ 1 ∧ (1 : Int) ≤ 5) ∧
    (0 ≤ (move_forward 1 1 "N" 5 5).1 ∧ (move_forward 1 1 "N" 5 5).1 ≤ 5 ∧
      0 ≤ (move_forward 1 1 "N" 5 5).2 ∧ (move_forward 1 1 "N" 5 5).2 ≤ 5) ∧
    ((5 : Int) < 5 + 1) ∧ move_forward 1 5 "N" 5 5 = (1, 5) ∧
    (Simulation.run simW2).map (fun r => r.sim.cars) = some [⟨"A", 1, 2, "N", [], false⟩] ∧
    InBounds 5 5 ⟨"A", 1, 2, "N", [], false⟩ := by
  refine ⟨by decide, claimC2_amended.1 1 1 "N" 5 5 (by decide) (by decide) (by decide) (by decide),
    by decide, (claimC2_amended.2.1 1 5 5 5).1 (by decide), ?_, ?_⟩
  · decide
  · cases hr : Simulation.run simW2 with
    | none =>
      have hs : (Simulation.run simW2).isSome = true := by decide
      rw [hr] at hs
      cases hs
    | some r =>
      have hcars : r.sim.cars = [⟨"A", 1, 2, "N", [], false⟩] := by
        have hmap : (Simulation.run simW2).map (fun r => r.sim.cars) =
            some [⟨"A", 1, 2, "N", [], false⟩] := by decide
        rw [hr] at hmap
        exact Option.some.inj hmap
      have hb := claimC2_amended.2.2 simW2 r (by decide) hr
      have : (⟨"A", 1, 2, "N", [], false⟩ : Car) ∈ r.sim.cars := by
        rw [hcars]; exact List.mem_singleton_self _
      exact hb _ this

/-- C5: a collided car is frozen: after any single car-processing step and
after any whole run, a car that was collided keeps its exact state (position,
heading, command queue and flag). -/
theorem claimC5_collided_frozen :
    (∀ (w h : Int) (step i : Nat) (st st' : StepState) (j : Nat) (c : Car),
      processCar w h step i st = some st' → st.cars[j]? = some c → c.collided = true →
      st'.cars[j]? = some c) ∧
    (∀ (sim : Simulation) (r : RunResult) (j : Nat) (c : Car),
      sim.run = some r → sim.cars[j]? = some c → c.collided = true →
      r.sim.cars[j]? = some c) :=
  ⟨fun w h step i st st' j c hp hj hc => processCar_frozen w h step i st st' j c hp hj hc,
    fun sim r j c hr hj hc => run_frozen sim r j c hr hj hc⟩

/-- Witness for C5: a concrete collided car, untouched by `processCar` and by
`run`. -/
theorem claimC5_witness :
    stW5.cars[0]? = some ⟨"A", 1, 1, "N", ['F'], true⟩ ∧
    (⟨"A", 1, 1, "N", ['F'], true⟩ : Car).collided = true ∧
    processCar 5 5 1 0 stW5 = some stW5 ∧
    stW5.cars[0]? = some ⟨"A", 1, 1, "N", ['F'], true⟩ ∧
    (Simulation.run simW5).map (fun r => r.sim.cars[0]?) =
      some (some ⟨"A", 1, 1, "N", ['F'], true⟩) := by
  have h1 : stW5.cars[0]? = some ⟨"A", 1, 1, "N", ['F'], true⟩ := rfl
  have h3 : processCar 5 5 1 0 stW5 = some stW5 := rfl
  refine ⟨h1, rfl, h3, claimC5_collided_frozen.1 5 5 1 0 stW5 stW5 0 _ h3 h1 rfl, ?_⟩
  cases hr : Simulation.run simW5 with
  | none =>
    have hs : (Simulation.run simW5).isSome = true := by decide
    rw [hr] at hs
    cases hs
  | some r =>
    have := claimC5_collided_frozen.2 simW5 r 0 ⟨"A", 1, 1, "N", ['F'], true⟩ hr rfl rfl
    simp [this]

/-- C8: `run` on an empty roster returns `False` and the untouched simulation
with empty log and listing; with at least one registered car (all registered
with a valid heading) it returns `True`. -/
theorem claimC8_empty_run :
    (∀ sim : Simulation, sim.cars = [] → sim.run = some ⟨false, sim, [], []⟩) ∧
    (∀ sim : Simulation, sim.cars ≠ [] → (∀ c ∈ sim.cars, c.direction ∈ DIRECTIONS) →
      ∃ r, sim.run = some r ∧ r.ok = true) := by
  constructor
  · intro sim hemp
    unfold Simulation.run
    rw [if_pos hemp]
  · exact fun sim hne hv => run_nonempty_ok sim hne hv

/-- Witness for C8: the empty simulation and a concrete one-car simulation. -/
theorem claimC8_witness :
    (Simulation.init 7 7).cars = [] ∧
    Simulation.run (Simulation.init 7 7) = some ⟨false, Simulation.init 7 7, [], []⟩ ∧
    simW8.cars ≠ [] ∧
    (Simulation.run simW8).map (fun r => r.ok) = some true := by
  refine ⟨rfl, claimC8_empty_run.1 (Simulation.init 7 7) rfl, by decide, ?_⟩
  obtain ⟨r, hr, hok⟩ := claimC8_empty_run.2 simW8 (by decide) (by decide)
  rw [hr]
  simp [hok]

/-! ### The occupancy invariant (claim C6 machinery) -/

/-- Appending one element does not change lookups below or above the old
length. -/
lemma getElem?_append_ne_length {α : Type} (l : List α) (a : α) (i : Nat)
    (h : i ≠ l.length) : (l ++ [a])[i]? = l[i]? := by
  rcases Nat.lt_or_ge i l.length with hlt | hge
  · exact List.getElem?_append_left hlt
  · have hgt : l.length < i := lt_of_le_of_ne hge (Ne.symm h)
    rw [List.getElem?_eq_none (by simp; omega), List.getElem?_eq_none (by omega)]

/-- A fresh simulation satisfies the occupancy invariant. -/
lemma occInv_init (w h : Int) :
    OccInv (Simulation.init w h).cars (Simulation.init w h).positions := by
  intro i p
  simp [Simulation.init]

/-- `add_car` preserves the occupancy invariant. -/
lemma occInv_add_car (sim : Simulation) (name : String) (x y : Int) (d cmds : String)
    (hInv : OccInv sim.cars sim.positions) :
    OccInv (sim.add_car name x y d cmds).cars (sim.add_car name x y d cmds).positions := by
  intro i p
  simp only [Simulation.add_car]
  by_cases hi : i = sim.cars.length
  · subst hi
    by_cases hp : p = (x, y)
    · subst hp
      simp [List.getElem?_concat_length, carPos]
    · rw [if_neg hp, hInv sim.cars.length p, List.getElem?_eq_none (le_refl _),
        List.getElem?_concat_length]
      simp [carPos]
      intro he
      exact absurd he.symm hp
  · rw [getElem?_append_ne_length sim.cars _ i hi]
    by_cases hp : p = (x, y)
    · subst hp
      rw [if_pos rfl, Finset.mem_insert, hInv i (x, y)]
      simp [hi]
    · rw [if_neg hp]
      exact hInv i p

/-- `processCar` preserves the occupancy invariant. -/
lemma processCar_occInv (w h : Int) (step i : Nat) (st st' : StepState)
    (hp : processCar w h step i st = some st')
    (hInv : OccInv st.cars st.positions) : OccInv st'.cars st'.positions := by
  rcases processCar_some_cases w h step i st st' hp with
    rfl | ⟨car, cmd, rest, car1, hget, hcol, hcmd, hexec, rfl⟩
  · exact hInv
  · have hi_lt : i < st.cars.length := (List.getElem?_eq_some.1 hget).1
    intro j p
    rw [procResult_cars, procResult_positions]
    have hcar2pos : carPos (if cmd = 'F' ∧
        collidedNames st.cars ((st.positions (car1.x, car1.y)).erase i) ≠ []
        then { car1 with collided := true } else car1) = (car1.x, car1.y) := by
      split <;> rfl
    rcases eq_or_ne j i with rfl | hne
    · rw [List.getElem?_set_self (by rw [markFrom_length]; exact hi_lt),
        Option.map_some', hcar2pos]
      simp only [Option.some.injEq]
      by_cases hp1 : p = (car1.x, car1.y)
      · subst hp1
        simp [addAt]
      · simp only [addAt, removeAt]
        rw [if_neg hp1]
        by_cases hp2 : p = (car.x, car.y)
        · rw [if_pos hp2]
          apply iff_of_false
          · simp [Finset.mem_erase]
          · exact fun he => hp1 he.symm
        · rw [if_neg hp2]
          apply iff_of_false
          · intro hmem
            rw [hInv j p, hget, Option.map_some'] at hmem
            exact hp2 (Option.some.inj hmem).symm
          · exact fun he => hp1 he.symm
    · rw [List.getElem?_set_ne (Ne.symm hne), markFrom_getElem?]
      have hmemAdd : j ∈ addAt (removeAt st.positions (car.x, car.y) i) (car1.x, car1.y) i p ↔
          j ∈ st.positions p := by
        simp only [addAt, removeAt]
        by_cases hp1 : p = (car1.x, car1.y)
        · rw [if_pos hp1, Finset.mem_insert]
          by_cases hhp : ((car1.x, car1.y) : Pos) = (car.x, car.y)
          · rw [if_pos hhp, Finset.mem_erase]
            constructor
            · rintro (rfl | ⟨-, hmem⟩)
              · exact absurd rfl hne
              · rw [hp1, hhp]
                exact hmem
            · intro hmem
              refine Or.inr ⟨hne, ?_⟩
              rw [hp1, hhp] at hmem
              exact hmem
          · rw [if_neg hhp]
            constructor
            · rintro (rfl | hmem)
              · exact absurd rfl hne
              · rw [hp1]
                exact hmem
            · intro hmem
              refine Or.inr ?_
              rw [hp1] at hmem
              exact hmem
        · rw [if_neg hp1]
          by_cases hp2 : p = (car.x, car.y)
          · rw [if_pos hp2, Finset.mem_erase, hp2]
            exact ⟨fun hm => hm.2, fun hm => ⟨hne, hm⟩⟩
          · rw [if_neg hp2]
      rw [hmemAdd]
      cases hjget : st.cars[j]? with
      | none =>
        rw [hInv j p, hjget]
        simp
      | some cj =>
        have hcjpos : carPos (if 0 + j ∈ (st.positions (car1.x, car1.y)).erase i
            then { cj with collided := true } else cj) = carPos cj := by
          split <;> rfl
        rw [hInv j p, hjget]
        simp only [Option.map_some']
        rw [hcjpos]

/-- The canonical occupancy index satisfies the occupancy invariant. -/
lemma occInv_posIndex (cars : List Car) : OccInv cars (posIndex cars) := by
  intro i p
  rw [posIndex, Finset.mem_filter, Finset.mem_range]
  constructor
  · rintro ⟨-, hpred⟩
    exact hpred
  · intro hpred
    refine ⟨?_, hpred⟩
    obtain ⟨c, hc, -⟩ := Option.map_eq_some'.1 hpred
    exact (List.getElem?_eq_some.1 hc).1

/-- A single car is separated. -/
lemma separated_singleton (c : Car) : Separated [c] := by
  intro i j ci cj hne hi hj _ _
  have hi0 : i = 0 := by
    have := (List.getElem?_eq_some.1 hi).1
    simp at this
    omega
  have hj0 : j = 0 := by
    have := (List.getElem?_eq_some.1 hj).1
    simp at this
    omega
  exact absurd (hi0.trans hj0.symm) hne

/-- The log of `procResult`, spelled out. -/
lemma procResult_log (step i : Nat) (st : StepState) (car car1 : Car) (cmd : Char) :
    (procResult step i st car cmd car1).log =
      (if cmd = 'F' ∧ collidedNames st.cars ((st.positions (car1.x, car1.y)).erase i) ≠ []
        then st.log ++ [⟨car1.name, collidedNames st.cars ((st.positions (car1.x, car1.y)).erase i),
          (car1.x, car1.y), step⟩] else st.log) := rfl

/-! ### Rotations set no collided flag (claim C3 machinery) -/

/-- On a separated state satisfying the occupancy invariant, processing a car
whose next command is a rotation changes no collided flag and logs nothing. -/
lemma processCar_rotation (w h : Int) (step i : Nat) (st st' : StepState) (car : Car)
    (cmd : Char) (rest : List Char)
    (hSep : Separated st.cars) (hInv : OccInv st.cars st.positions)
    (hget : st.cars[i]? = some car) (hcmd : car.commands = cmd :: rest)
    (hLR : cmd = 'L' ∨ cmd = 'R')
    (hp : processCar w h step i st = some st') :
    (∀ j : Nat, st'.cars[j]?.map Car.collided = st.cars[j]?.map Car.collided) ∧
      st'.log = st.log := by
  rcases processCar_some_cases w h step i st st' hp with
    rfl | ⟨car', cmd', rest', car1, hget', hcol', hcmd', hexec, rfl⟩
  · exact ⟨fun j => rfl, rfl⟩
  · rw [hget] at hget'
    obtain rfl : car = car' := Option.some.inj hget'
    rw [hcmd] at hcmd'
    obtain ⟨rfl, rfl⟩ : cmd = cmd' ∧ rest = rest' := by
      injection hcmd' with h1 h2
      exact ⟨h1, h2⟩
    have hcF : cmd ≠ 'F' := by rcases hLR with rfl | rfl <;> decide
    obtain ⟨hx1, hy1⟩ :=
      execute_command_pos { car with commands := rest } car1 cmd w h hcF hexec
    have hx1' : car1.x = car.x := hx1
    have hy1' : car1.y = car.y := hy1
    have hi_lt : i < st.cars.length := (List.getElem?_eq_some.1 hget).1
    have hnotF : ¬ (cmd = 'F' ∧
        collidedNames st.cars ((st.positions (car1.x, car1.y)).erase i) ≠ []) :=
      fun hc => hcF hc.1
    refine ⟨?_, ?_⟩
    · intro j
      rw [procResult_cars, if_neg hnotF]
      rcases eq_or_ne j i with rfl | hne
      · rw [List.getElem?_set_self (by rw [markFrom_length]; exact hi_lt), hget]
        obtain ⟨-, -, hcol1⟩ := execute_command_fields _ _ cmd w h hexec
        have hcol1' : car1.collided = car.collided := hcol1
        simp [hcol1']
      · rw [List.getElem?_set_ne (Ne.symm hne), markFrom_getElem?]
        cases hjget : st.cars[j]? with
        | none => simp
        | some cj =>
          simp only [Option.map_some', zero_add]
          by_cases hmem : j ∈ (st.positions (car1.x, car1.y)).erase i
          · obtain ⟨hne_ji, hmem'⟩ := Finset.mem_erase.1 hmem
            have hcj_at := (hInv j (car1.x, car1.y)).1 hmem'
            rw [hjget, Option.map_some'] at hcj_at
            have hcjpos : carPos cj = carPos car := by
              rw [Option.some.inj hcj_at, carPos, hx1', hy1']
            have hcjcol : cj.collided = true := by
              by_contra hcjf
              have hcjf' : cj.collided = false := by
                cases hcol : cj.collided
                · rfl
                · exact absurd hcol hcjf
              exact hSep j i cj car hne hjget hget hcjf' hcol' hcjpos
            rw [if_pos hmem, collided_update_eq cj hcjcol]
          · rw [if_neg hmem]
    · rw [procResult_log, if_neg hnotF]

/-! ### Claim theorems: rotations and occupancy -/

/-- C3: during a run (whose reachable states are separated and satisfy the
occupancy invariant), processing a car whose popped command is `L` or `R`
sets no car's collided flag and reports no collision; only an `F` command
can do either. -/
theorem claimC3_rotation_no_collision :
    ∀ (w h : Int) (step i : Nat) (st st' : StepState) (car : Car) (cmd : Char)
      (rest : List Char),
      Separated st.cars → OccInv st.cars st.positions →
      st.cars[i]? = some car → car.commands = cmd :: rest → (cmd = 'L' ∨ cmd = 'R') →
      processCar w h step i st = some st' →
      (∀ j : Nat, st'.cars[j]?.map Car.collided = st.cars[j]?.map Car.collided) ∧
        st'.log = st.log :=
  fun w h step i st st' car cmd rest hSep hInv hget hcmd hLR hp =>
    processCar_rotation w h step i st st' car cmd rest hSep hInv hget hcmd hLR hp

/-- Witness for C3 at a concrete one-car state about to rotate left. -/
theorem claimC3_witness :
    Separated stW3.cars ∧ OccInv stW3.cars stW3.positions ∧
    stW3.cars[0]? = some ⟨"A", 1, 1, "N", ['L'], false⟩ ∧
    processCar 5 5 1 0 stW3 =
      some (procResult 1 0 stW3 ⟨"A", 1, 1, "N", ['L'], false⟩ 'L'
        ⟨"A", 1, 1, "W", [], false⟩) ∧
    ((procResult 1 0 stW3 ⟨"A", 1, 1, "N", ['L'], false⟩ 'L'
        ⟨"A", 1, 1, "W", [], false⟩).cars[0]?).map Car.collided =
      (stW3.cars[0]?).map Car.collided := by
  have hSep : Separated stW3.cars := separated_singleton _
  have hInv : OccInv stW3.cars stW3.positions := occInv_posIndex _
  have hproc : processCar 5 5 1 0 stW3 =
      some (procResult 1 0 stW3 ⟨"A", 1, 1, "N", ['L'], false⟩ 'L'
        ⟨"A", 1, 1, "W", [], false⟩) := rfl
  refine ⟨hSep, hInv, rfl, hproc, ?_⟩
  exact (claimC3_rotation_no_collision 5 5 1 0 stW3 _ ⟨"A", 1, 1, "N", ['L'], false⟩ 'L' []
    hSep hInv rfl rfl (Or.inl rfl) hproc).1 0

/-- C6: the occupancy index invariant — every car is recorded exactly at its
own cell — holds for a fresh simulation, is preserved by `add_car`, is
preserved by each individual car-processing step, and indeed pins every car
to exactly one cell. -/
theorem claimC6_occupancy :
    (∀ w h : Int, OccInv (Simulation.init w h).cars (Simulation.init w h).positions) ∧
    (∀ (sim : Simulation) (name : String) (x y : Int) (d cmds : String),
      OccInv sim.cars sim.positions →
      OccInv (sim.add_car name x y d cmds).cars (sim.add_car name x y d cmds).positions) ∧
    (∀ (w h : Int) (step i : Nat) (st st' : StepState),
      processCar w h step i st = some st' → OccInv st.cars st.positions →
      OccInv st'.cars st'.positions) ∧
    (∀ (cars : List Car) (pos : Pos → Finset Nat), OccInv cars pos →
      ∀ (j : Nat) (c : Car), cars[j]? = some c →
        j ∈ pos (carPos c) ∧ ∀ p, j ∈ pos p → p = carPos c) := by
  refine ⟨occInv_init, occInv_add_car, ?_, ?_⟩
  · exact fun w h step i st st' hp hInv => processCar_occInv w h step i st st' hp hInv
  · intro cars pos hInv j c hj
    constructor
    · rw [hInv j (carPos c), hj, Option.map_some']
    · intro p hp
      have := (hInv j p).1 hp
      rw [hj, Option.map_some'] at this
      exact (Option.some.inj this).symm

/-- Witness for C6: the invariant after a concrete registration and after a
concrete processing step. -/
theorem claimC6_witness :
    OccInv stW6.cars stW6.positions ∧
    processCar 5 5 1 0 stW6 =
      some (procResult 1 0 stW6 ⟨"A", 1, 1, "N", ['F'], false⟩ 'F'
        ⟨"A", 1, 2, "N", [], false⟩) ∧
    OccInv (procResult 1 0 stW6 ⟨"A", 1, 1, "N", ['F'], false⟩ 'F'
        ⟨"A", 1, 2, "N", [], false⟩).cars
      (procResult 1 0 stW6 ⟨"A", 1, 1, "N", ['F'], false⟩ 'F'
        ⟨"A", 1, 2, "N", [], false⟩).positions ∧
    stW6.cars[0]? = some ⟨"A", 1, 1, "N", ['F'], false⟩ ∧
    0 ∈ stW6.positions (1, 1) := by
  have h0 := claimC6_occupancy.1 5 5
  have h1 := claimC6_occupancy.2.1 (Simulation.init 5 5) "A" 1 1 "N" "F" h0
  have h1' : OccInv stW6.cars stW6.positions := h1
  have h2 : processCar 5 5 1 0 stW6 =
      some (procResult 1 0 stW6 ⟨"A", 1, 1, "N", ['F'], false⟩ 'F'
        ⟨"A", 1, 2, "N", [], false⟩) := rfl
  refine ⟨h1', h2, claimC6_occupancy.2.2.1 5 5 1 0 stW6 _ h2 h1', rfl, ?_⟩
  exact (claimC6_occupancy.2.2.2 stW6.cars stW6.positions h1' 0
    ⟨"A", 1, 1, "N", ['F'], false⟩ rfl).1

/-! ### Claim theorem: within-step ordering and tie-break -/

/-- C4: within one step cars are processed in registration order.  First
conjunct: the second-registered car moves into the cell the first-registered
car vacated earlier in the same step, and neither is marked collided and
nothing is logged.  Second conjunct: the first-registered car moves onto the
cell of the not-yet-processed second car; both are marked collided, the
collision is logged against the moving car, and the occupant — though it had
a pending rotation command — is skipped in its own turn: its heading, queue
and position are untouched. -/
theorem claimC4_step_ordering :
    (∀ (w h : Int) (n1 n2 : String) (x1 y1 x2 y2 x3 y3 : Int) (d1 d2 : String),
      ((x1, y1) : Pos) ≠ (x2, y2) →
      move_forward x1 y1 d1 w h = (x3, y3) →
      ((x3, y3) : Pos) ≠ (x1, y1) →
      ((x3, y3) : Pos) ≠ (x2, y2) →
      move_forward x2 y2 d2 w h = (x1, y1) →
      (Simulation.run (twoCarSim w h n1 x1 y1 d1 "F" n2 x2 y2 d2 "F")).map
          (fun r => (r.sim.cars, r.log, r.final)) =
        some ([⟨n1, x3, y3, d1, [], false⟩, ⟨n2, x1, y1, d2, [], false⟩], [],
          [(n1, (x3, y3), d1), (n2, (x1, y1), d2)])) ∧
    (∀ (w h : Int) (n1 n2 : String) (x1 y1 x2 y2 : Int) (d1 d2 : String),
      ((x1, y1) : Pos) ≠ (x2, y2) →
      move_forward x1 y1 d1 w h = (x2, y2) →
      (Simulation.run (twoCarSim w h n1 x1 y1 d1 "F" n2 x2 y2 d2 "L")).map
          (fun r => (r.sim.cars, r.log, r.final)) =
        some ([⟨n1, x2, y2, d1, [], true⟩, ⟨n2, x2, y2, d2, ['L'], true⟩],
          [⟨n1, [n2], (x2, y2), 1⟩], [])) := by
  constructor
  · intro w h n1 n2 x1 y1 x2 y2 x3 y3 d1 d2 hne12 hmvA hneA1 hneA2 hmvB
    have c12 : ¬(x1 = x2 ∧ y1 = y2) := fun hc => hne12 (by rw [hc.1, hc.2])
    have c21 : ¬(x2 = x1 ∧ y2 = y1) := fun hc => hne12 (by rw [hc.1, hc.2])
    have cA1 : ¬(x3 = x1 ∧ y3 = y1) := fun hc => hneA1 (by rw [hc.1, hc.2])
    have c1A : ¬(x1 = x3 ∧ y1 = y3) := fun hc => hneA1 (by rw [hc.1, hc.2])
    have cA2 : ¬(x3 = x2 ∧ y3 = y2) := fun hc => hneA2 (by rw [hc.1, hc.2])
    have c2A : ¬(x2 = x3 ∧ y2 = y3) := fun hc => hneA2 (by rw [hc.1, hc.2])
    simp [twoCarSim, Simulation.add_car, Simulation.init, Simulation.run, runLoop, runStep,
      processList, processCar, Car.execute_command, hmvA, hmvB, markFrom, collidedNames,
      addAt, removeAt, sortDesc, insertDesc, c12, c21, cA1, c1A, cA2, c2A,
      show List.range 2 = [0, 1] from rfl]
  · intro w h n1 n2 x1 y1 x2 y2 d1 d2 hne12 hmvA
    have c12 : ¬(x1 = x2 ∧ y1 = y2) := fun hc => hne12 (by rw [hc.1, hc.2])
    have c21 : ¬(x2 = x1 ∧ y2 = y1) := fun hc => hne12 (by rw [hc.1, hc.2])
    simp [twoCarSim, Simulation.add_car, Simulation.init, Simulation.run, runLoop, runStep,
      processList, processCar, Car.execute_command, hmvA, markFrom, collidedNames,
      addAt, removeAt, sortDesc, insertDesc, c12, c21,
      show List.range 2 = [0, 1] from rfl]

/-- Witness for C4 at concrete cars: A at (1,1) facing N, with B first at
(1,0) moving into A's vacated cell, then at (1,2) being hit by A. -/
theorem claimC4_witness :
    (((1, 1) : Pos) ≠ (1, 0) ∧ move_forward 1 1 "N" 5 5 = (1, 2) ∧
      ((1, 2) : Pos) ≠ (1, 1) ∧ ((1, 2) : Pos) ≠ (1, 0) ∧
      move_forward 1 0 "N" 5 5 = (1, 1)) ∧
    (Simulation.run (twoCarSim 5 5 "A" 1 1 "N" "F" "B" 1 0 "N" "F")).map
        (fun r => (r.sim.cars, r.log, r.final)) =
      some ([⟨"A", 1, 2, "N", [], false⟩, ⟨"B", 1, 1, "N", [], false⟩], [],
        [("A", (1, 2), "N"), ("B", (1, 1), "N")]) ∧
    (((1, 1) : Pos) ≠ (1, 2) ∧ move_forward 1 1 "N" 5 5 = (1, 2)) ∧
    (Simulation.run (twoCarSim 5 5 "A" 1 1 "N" "F" "B" 1 2 "E" "L")).map
        (fun r => (r.sim.cars, r.log, r.final)) =
      some ([⟨"A", 1, 2, "N", [], true⟩, ⟨"B", 1, 2, "E", ['L'], true⟩],
        [⟨"A", ["B"], (1, 2), 1⟩], []) :=
  ⟨⟨by decide, by decide, by decide, by decide, by decide⟩,
    claimC4_step_ordering.1 5 5 "A" "B" 1 1 1 0 1 2 "N" "N" (by decide) (by decide)
      (by decide) (by decide) (by decide),
    ⟨by decide, by decide⟩,
    claimC4_step_ordering.2 5 5 "A" "B" 1 1 1 2 "N" "E" (by decide) (by decide)⟩
